import Mathlib

/-!
Verification of the sales-dashboard analytic core (src/index.tsx, src/types.ts).

Shallow embedding conventions:
* JavaScript numbers are modelled as exact rationals (`Rat`); the code's
  arithmetic is plain +, /, comparison, and the spec reasons about exact
  ratios, so no rounding model is needed.
* A loosely-typed JSON scalar is `JVal` (`null`/`undefined` collapse to
  `vNull`, both are falsy and both make `cleanString` return `""`).
* JS objects used as string-keyed records (the pivot matrices) are modelled
  as `String → Option …` maps; a lookup JavaScript would crash on (reading a
  property of `undefined`) or silently poison (NaN from `undefined + x`) is
  modelled as `Option.none` propagating through the computation, and we
  prove those branches unreachable.
* `String.prototype.localeCompare` is modelled as code-point comparison
  (`lexCmpChars`); JS default string `<`/`>` on fixed-format ISO dates is
  the same order.  `toLowerCase` is modelled for the ASCII and Cyrillic
  ranges that occur in the data vocabulary.
* `Number(…)` is modelled for finite decimal notation (sign, digits,
  decimal point, exponent); hex literals and `"Infinity"` map to `none`.
-/

/-- A loosely typed JSON scalar as the dashboard receives it: absent/null
fields are `vNull`, numbers are exact rationals, strings are strings. -/
inductive JVal : Type where
  | vNull : JVal
  | vNum : Rat → JVal
  | vStr : String → JVal
deriving DecidableEq, Repr

/-- JavaScript truthiness for the scalars of `JVal`: `null`/`undefined`,
`0` and `""` are falsy, everything else truthy. -/
def truthy : JVal → Bool
  | .vNull => false
  | .vNum q => decide (q ≠ 0)
  | .vStr s => decide (s ≠ "")

/-- `a || b` of JavaScript on `JVal` scalars: the first truthy operand. -/
def jsOr (a b : JVal) : JVal := if truthy a then a else b

/-- Decimal digit test (`[0-9]`). -/
def isDigit (c : Char) : Bool := 48 ≤ c.toNat && c.toNat ≤ 57

/-- The characters matched by JavaScript's `\s` (the ones that occur in
practice: ASCII whitespace, NBSP, the Unicode space block, BOM). -/
def jsIsSpace (c : Char) : Bool :=
  c.isWhitespace || c.toNat = 0x0B || c.toNat = 0x0C || c.toNat = 0xA0 ||
  c.toNat = 0x1680 || (0x2000 ≤ c.toNat && c.toNat ≤ 0x200A) ||
  c.toNat = 0x2028 || c.toNat = 0x2029 || c.toNat = 0x202F ||
  c.toNat = 0x205F || c.toNat = 0x3000 || c.toNat = 0xFEFF

/-- `String.prototype.replace(',', '.')`: only the first comma changes. -/
def replaceFirstComma : List Char → List Char
  | [] => []
  | c :: cs => if c = ',' then '.' :: cs else c :: replaceFirstComma cs

/-- Digit run to a natural number. -/
def digitsToNat (cs : List Char) : Nat := cs.foldl (fun a c => a * 10 + (c.toNat - 48)) 0

/-- `parseFloat` on the character set `parseNum` feeds it (digits, `.`, `-`):
longest valid numeric head, `none` standing for NaN. -/
def jsParseFloat (cs : List Char) : Option Rat :=
  let sgn : Rat × List Char :=
    match cs with
    | '-' :: rest => (-1, rest)
    | '+' :: rest => (1, rest)
    | _ => (1, cs)
  let ip := sgn.2.takeWhile isDigit
  let cs2 := sgn.2.dropWhile isDigit
  match cs2 with
  | '.' :: cs3 =>
    let fp := cs3.takeWhile isDigit
    if ip.isEmpty && fp.isEmpty then none
    else some (sgn.1 * ((digitsToNat ip : Rat) + (digitsToNat fp : Rat) / (10 : Rat) ^ fp.length))
  | _ => if ip.isEmpty then none else some (sgn.1 * (digitsToNat ip : Rat))

/-- JS rendering of a finite number used by `String(value)` and
`cleanString`.  Exact for integers and for decimal fractions of at most 20
digits, which covers every value the cleaning pipeline can feed back. -/
def fracDigitsAux : Nat → Nat → Nat → List Char
  | 0, _, _ => []
  | _ + 1, 0, _ => []
  | fuel + 1, n, d =>
    let n' := n * 10
    Char.ofNat (48 + n' / d) :: fracDigitsAux fuel (n' % d) d

/-- Decimal rendering of a rational, the model of JS number-to-string. -/
def numToStr (q : Rat) : String :=
  let sgn := if q < 0 then "-" else ""
  let n := q.num.natAbs
  let d := q.den
  let fr := fracDigitsAux 20 (n % d) d
  sgn ++ toString (n / d) ++ (if fr.isEmpty then "" else "." ++ String.mk fr)

/-- `String(v)` for the scalars that reach it in the dashboard. -/
def jvalToString : JVal → String
  | .vNull => "null"
  | .vNum q => numToStr q
  | .vStr s => s

/-- `cleanString` (index.tsx:15-18): `null`/`undefined` become `""`, other
values are stringified, stripped of `\n`/`\r` and trimmed. -/
def cleanString (v : JVal) : String :=
  match v with
  | .vNull => ""
  | _ => (String.mk ((jvalToString v).data.filter (fun c => !(c = '\n' || c = '\r')))).trim

/-- `parseNum` (index.tsx:20-31): numbers pass through, falsy values are 0,
strings are stripped of newlines and whitespace, the first comma becomes a
point, every character outside `[0-9.-]` is dropped, and the result is
parseFloat-ed with NaN collapsing to 0. -/
def parseNum : JVal → Rat
  | .vNum q => q
  | .vNull => 0
  | .vStr s =>
    if s = "" then 0
    else
      let noNl := s.data.filter (fun c => !(c = '\n' || c = '\r'))
      let noWs := noNl.filter (fun c => !jsIsSpace c)
      let dotted := replaceFirstComma noWs
      let kept := dotted.filter (fun c => isDigit c || c = '.' || c = '-')
      match jsParseFloat kept with
      | some q => q
      | none => 0

/-- `toLowerCase` for the alphabets the data uses: ASCII A-Z and Cyrillic
А-Я (plus Ё). -/
def charLowerJS (c : Char) : Char :=
  let n := c.toNat
  if 65 ≤ n && n ≤ 90 then Char.ofNat (n + 32)
  else if 0x410 ≤ n && n ≤ 0x42F then Char.ofNat (n + 0x20)
  else if n = 0x401 then Char.ofNat 0x451
  else c

/-- Model of `String.prototype.toLowerCase`. -/
def jsToLower (s : String) : String := String.mk (s.data.map charLowerJS)

/-- Does `hay` start with `needle`? -/
def leadMatch : List Char → List Char → Bool
  | [], _ => true
  | _ :: _, [] => false
  | a :: as, b :: bs => a = b && leadMatch as bs

/-- Contiguous-substring test on character lists. -/
def hasSubChars (needle : List Char) : List Char → Bool
  | [] => needle.isEmpty
  | c :: rest => leadMatch needle (c :: rest) || hasSubChars needle rest

/-- Model of `String.prototype.includes`. -/
def hasSub (needle hay : String) : Bool := hasSubChars needle.data hay.data

/-- One raw report row: each logical field in both key vocabularies
(machine key and the human-readable Russian header), as in `RawReportRow`
(types.ts:2-22) and the alias chains of `normalizeData` (index.tsx:44-87).
A key absent from the payload is `vNull`. -/
structure RawRow where
  id : JVal := .vNull
  date : JVal := .vNull
  dateHr : JVal := .vNull            -- "Дата"
  store_name : JVal := .vNull
  storeHr : JVal := .vNull           -- "Магазин"
  category_name : JVal := .vNull
  categoryHr : JVal := .vNull        -- "Категория товара"
  unit_raw : JVal := .vNull
  unitRawHr : JVal := .vNull         -- "Шт. в кг"
  unit_type : JVal := .vNull
  pieces_per_kg : JVal := .vNull
  weight_kg : JVal := .vNull
  weightHr : JVal := .vNull          -- "Вес, кг"
  revenue_rub : JVal := .vNull
  revenueHr : JVal := .vNull         -- "Выручка, ₽"
  revenue_rub_raw : JVal := .vNull
  checks : JVal := .vNull
  checksHr : JVal := .vNull          -- "Чеки, шт."
  pieces : JVal := .vNull
  piecesHr : JVal := .vNull          -- "Штуки"
  peaces : JVal := .vNull            -- known upstream typo alias
  week : JVal := .vNull
  month : JVal := .vNull
  quarter : JVal := .vNull
  year : JVal := .vNull
deriving DecidableEq, Repr

/-- One ingestion array element: either a bare row or the n8n `{json: row}`
wrapper (`item.json ? item.json : item`, index.tsx:47). -/
inductive RawItem : Type where
  | plain : RawRow → RawItem
  | wrapped : RawRow → RawItem
deriving DecidableEq, Repr

/-- `NormalizedRow` (types.ts:36-56). -/
structure NRow where
  id : String
  date : String
  store_name : String
  category_name : String
  unit_raw : String
  unit_type : String
  pieces_per_kg : Rat
  weight_kg : Rat
  revenue_rub : Rat
  checks : Rat
  pieces : Rat
  week : Rat
  month : Rat
  quarter : Rat
  year : Rat
  atv : Rat
  upt : Rat
  avg_price_per_kg : Rat
  avg_price_per_piece : Rat
deriving DecidableEq, Repr

/-- The body of `normalizeData`'s `map` callback (index.tsx:45-85). -/
def normalizeRow (idx : Nat) (item : RawItem) : NRow :=
  let row := match item with | .wrapped r => r | .plain r => r
  let revenue := parseNum (jsOr row.revenue_rub (jsOr row.revenueHr row.revenue_rub_raw))
  let checks := parseNum (jsOr row.checks row.checksHr)
  let pieces := parseNum (jsOr row.pieces (jsOr row.piecesHr row.peaces))
  let weight := parseNum (jsOr row.weight_kg row.weightHr)
  let dateStr := cleanString (jsOr row.date row.dateHr)
  let store := cleanString (jsOr row.store_name (jsOr row.storeHr (JVal.vStr "Неизвестно")))
  let category := cleanString (jsOr row.category_name (jsOr row.categoryHr (JVal.vStr "Прочее")))
  let rawUnit := cleanString (jsOr row.unit_raw row.unitRawHr)
  let unitTypeClean := jsToLower (cleanString row.unit_type)
  let unitType : String :=
    if hasSub "kg" unitTypeClean || hasSub "кг" unitTypeClean ||
        hasSub "кг" (jsToLower rawUnit) then "kg" else "pcs"
  let idClean := cleanString row.id
  let yearRaw := parseNum row.year
  { id := if idClean = "" then "row-" ++ toString idx else idClean
    date := dateStr
    store_name := store
    category_name := category
    unit_raw := rawUnit
    unit_type := unitType
    pieces_per_kg := parseNum row.pieces_per_kg
    weight_kg := weight
    revenue_rub := revenue
    checks := checks
    pieces := pieces
    week := parseNum row.week
    month := parseNum row.month
    quarter := parseNum row.quarter
    year := if yearRaw = 0 then 2025 else yearRaw
    atv := if checks > 0 then revenue / checks else 0
    upt := if checks > 0 then pieces / checks else 0
    avg_price_per_kg := if weight > 0 then revenue / weight else 0
    avg_price_per_piece := if pieces > 0 then revenue / pieces else 0 }

/-- `normalizeData` (index.tsx:44-87): one normalized row per input row, in
input order, the index feeding the synthesized id. -/
def normalizeData (raw : List RawItem) : List NRow :=
  raw.enum.map (fun p => normalizeRow p.1 p.2)

/-- The filter specification (types.ts:58-64). -/
structure Filters where
  dateFrom : String
  dateTo : String
  stores : List String
  categories : List String
  unitTypes : List String
deriving DecidableEq, Repr

/-- Code-point three-way comparison of character lists: the model of both
JS string `<`/`>` and (as a collation simplification) `localeCompare`. -/
def lexCmpChars : List Char → List Char → Int
  | [], [] => 0
  | [], _ :: _ => -1
  | _ :: _, [] => 1
  | a :: as, b :: bs =>
    if a.toNat < b.toNat then -1
    else if b.toNat < a.toNat then 1
    else lexCmpChars as bs

/-- Code-point string order `a ≤ b` induced by `lexCmpChars`. -/
def lexLe (a b : String) : Prop := lexCmpChars a.data b.data ≤ 0

instance (a b : String) : Decidable (lexLe a b) := by
  unfold lexLe; infer_instance

/-- The per-row filter predicate of `filteredData` (index.tsx:157-166),
with its early-return structure. -/
def filterRow (f : Filters) (d : NRow) : Bool :=
  if (f.dateFrom ≠ "" && lexCmpChars d.date.data f.dateFrom.data < 0 : Bool) then false
  else if (f.dateTo ≠ "" && lexCmpChars f.dateTo.data d.date.data < 0 : Bool) then false
  else if (f.stores.length ≠ 0 && !f.stores.contains d.store_name : Bool) then false
  else if (f.categories.length ≠ 0 && !f.categories.contains d.category_name : Bool) then false
  else if (f.unitTypes.length ≠ 0 && !f.unitTypes.contains d.unit_type : Bool) then false
  else true

/-- `filteredData` (index.tsx:157-166). -/
def filteredData (f : Filters) (data : List NRow) : List NRow :=
  data.filter (filterRow f)

/-- The accumulator of the KPI reduce (index.tsx:170-175). -/
structure Totals where
  rev : Rat
  chk : Rat
  pcs : Rat
  wgt : Rat
deriving DecidableEq, Repr

/-- The `total` reduce of `stats` (index.tsx:170-175). -/
def statsTotal (rows : List NRow) : Totals :=
  rows.foldl
    (fun acc curr =>
      { rev := acc.rev + curr.revenue_rub
        chk := acc.chk + curr.checks
        pcs := acc.pcs + curr.pieces
        wgt := acc.wgt + curr.weight_kg })
    { rev := 0, chk := 0, pcs := 0, wgt := 0 }

/-- The headline ATV value (index.tsx:182), before currency formatting. -/
def statsAtv (rows : List NRow) : Rat :=
  let t := statsTotal rows
  if t.chk > 0 then t.rev / t.chk else 0

/-- The headline UPT value (index.tsx:183), before `toFixed` formatting. -/
def statsUpt (rows : List NRow) : Rat :=
  let t := statsTotal rows
  if t.chk > 0 then t.pcs / t.chk else 0

/-- First-occurrence deduplication, the model of `Array.from(new Set(xs))`. -/
def uniqAux [DecidableEq α] (seen : List α) : List α → List α
  | [] => []
  | x :: xs => if x ∈ seen then uniqAux seen xs else x :: uniqAux (x :: seen) xs

/-- `Array.from(new Set(xs))`: distinct values in first-occurrence order. -/
def uniqFirst [DecidableEq α] (l : List α) : List α := uniqAux [] l

/-- Stable insertion against a JS-style numeric comparator: `x` goes in
front of the first element it does not compare after. -/
def insertCmp (cmp : α → α → Rat) (x : α) : List α → List α
  | [] => [x]
  | y :: ys => if cmp x y ≤ 0 then x :: y :: ys else y :: insertCmp cmp x ys

/-- Stable comparison sort with a JS comparator.  For a consistent
comparator this is the unique stable order, hence the result of
`Array.prototype.sort`. -/
def sortCmp (cmp : α → α → Rat) : List α → List α
  | [] => []
  | x :: xs => insertCmp cmp x (sortCmp cmp xs)

/-- `Number(string)` for finite decimal notation: trimmed, `""` is 0, then
sign, digits, optional point and exponent, the whole string consumed.
`none` stands for NaN. -/
def jsNumberMantissa (cs : List Char) : Option (Rat × List Char) :=
  let ip := cs.takeWhile isDigit
  let r1 := cs.dropWhile isDigit
  match r1 with
  | '.' :: r2 =>
    let fp := r2.takeWhile isDigit
    let r3 := r2.dropWhile isDigit
    if ip.isEmpty && fp.isEmpty then none
    else some ((digitsToNat ip : Rat) + (digitsToNat fp : Rat) / (10 : Rat) ^ fp.length, r3)
  | _ => if ip.isEmpty then none else some ((digitsToNat ip : Rat), r1)

/-- Exponent tail after `e`/`E`: optional sign then digits. -/
def jsNumberExp : List Char → Option Int
  | '+' :: r => if !r.isEmpty && r.all isDigit then some (digitsToNat r : Int) else none
  | '-' :: r => if !r.isEmpty && r.all isDigit then some (-(digitsToNat r : Int)) else none
  | r => if !r.isEmpty && r.all isDigit then some (digitsToNat r : Int) else none

/-- Ten to an integer power. -/
def pow10 (e : Int) : Rat :=
  if 0 ≤ e then (10 : Rat) ^ e.toNat else ((10 : Rat) ^ (-e).toNat)⁻¹

/-- Unsigned part of `Number(…)`: mantissa and optional exponent. -/
def jsNumberUnsigned (cs : List Char) : Option Rat :=
  match jsNumberMantissa cs with
  | none => none
  | some (m, rest) =>
    match rest with
    | [] => some m
    | 'e' :: r => (jsNumberExp r).map (fun e => m * pow10 e)
    | 'E' :: r => (jsNumberExp r).map (fun e => m * pow10 e)
    | _ => none

/-- Signed `Number(…)` core on the trimmed character list. -/
def jsNumberCore : List Char → Option Rat
  | '+' :: r => jsNumberUnsigned r
  | '-' :: r => (jsNumberUnsigned r).map (fun q => -q)
  | r => jsNumberUnsigned r

/-- `Number(s)`, `none` for NaN: `!isNaN(Number(s))` is `(jsNumber s).isSome`. -/
def jsNumber (s : String) : Option Rat :=
  let t := s.trim
  if t = "" then some 0 else jsNumberCore t.data

/-- The numeric value of a key that parses as a number. -/
def numVal (s : String) : Rat := (jsNumber s).getD 0

/-- The column-key comparator of `pivotTable` (index.tsx:190-193): numeric
difference when both keys parse as numbers, else `localeCompare`. -/
def colCmp (a b : String) : Rat :=
  match jsNumber a, jsNumber b with
  | some x, some y => x - y
  | _, _ => ((lexCmpChars a.data b.data : Int) : Rat)

/-- The comparator of a bare `.sort()` (row keys, index.tsx:189): plain
string comparison. -/
def defaultCmp (a b : String) : Rat := ((lexCmpChars a.data b.data : Int) : Rat)

/-- The sorted distinct row-key list of `pivotTable` (index.tsx:189). -/
def rowKeysOf (rows : List NRow) (rd : NRow → String) : List String :=
  sortCmp defaultCmp (uniqFirst (rows.map rd))

/-- The sorted distinct column-key list of `pivotTable` (index.tsx:190-193). -/
def colKeysOf (rows : List NRow) (cd : NRow → String) : List String :=
  sortCmp colCmp (uniqFirst (rows.map cd))

/-- A `Record<string, Record<string, α>>`: outer key to inner record, a
missing key being `none` (reading through it is the JS crash/NaN path). -/
def Mat (α : Type) : Type := String → Option (String → Option α)

/-- `m[r][c]` when both keys are present. -/
def mLookup (m : Mat α) (r c : String) : Option α :=
  (m r).bind (fun inner => inner c)

/-- `m[r][c] = v` on a present outer key (the only way the code writes). -/
def mSet (m : Mat α) (r c : String) (v : α) : Mat α :=
  fun r' =>
    if r' = r then (m r).map (fun inner => fun c' => if c' = c then some v else inner c')
    else m r'

/-- The zero-initialized matrix over the key grid (index.tsx:195-206). -/
def mInit (rowKeys colKeys : List String) (a : α) : Mat α :=
  fun r => if r ∈ rowKeys then some (fun c => if c ∈ colKeys then some a else none) else none

/-- The per-cell auxiliary sums of `matrixAux` (index.tsx:202). -/
structure Aux where
  rev : Rat
  chk : Rat
  pcs : Rat
deriving DecidableEq, Repr

/-- The six pivot measures (`PivotValueType`, types.ts:66). -/
inductive PivotValue : Type where
  | sum_revenue | sum_checks | sum_pieces | sum_weight | calc_atv | calc_upt
deriving DecidableEq, Repr

/-- One iteration of the accumulation loop of `pivotTable`
(index.tsx:208-224): read the row's cell in both matrices (a missing key is
the unreachable crash path, modelled as `none`), add the row's raw fields
to the auxiliary cell, and update the value cell per measure — sums
accumulate, `calc_atv`/`calc_upt` overwrite with the ratio of the just
updated auxiliary sums. -/
def pivotStep (rd cd : NRow → String) (pv : PivotValue)
    (acc : Option (Mat Rat × Mat Aux)) (d : NRow) : Option (Mat Rat × Mat Aux) :=
  match acc with
  | none => none
  | some (m, ma) =>
    match mLookup ma (rd d) (cd d), mLookup m (rd d) (cd d) with
    | some a, some v =>
      let a2 : Aux := { rev := a.rev + d.revenue_rub, chk := a.chk + d.checks, pcs := a.pcs + d.pieces }
      let v2 : Rat :=
        match pv with
        | .sum_revenue => v + d.revenue_rub
        | .sum_checks => v + d.checks
        | .sum_pieces => v + d.pieces
        | .sum_weight => v + d.weight_kg
        | .calc_atv => if a2.chk > 0 then a2.rev / a2.chk else 0
        | .calc_upt => if a2.chk > 0 then a2.pcs / a2.chk else 0
      some (mSet m (rd d) (cd d) v2, mSet ma (rd d) (cd d) a2)
    | _, _ => none

/-- The output of `pivotTable` (index.tsx:226). -/
structure PivotResult : Type where
  rowKeys : List String
  colKeys : List String
  matrix : Mat Rat
  matrixAux : Mat Aux

/-- `pivotTable` (index.tsx:188-227): key lists, zero-initialized matrices,
then the accumulation pass over the filtered rows. -/
def pivotTable (rows : List NRow) (rd cd : NRow → String) (pv : PivotValue) :
    Option PivotResult :=
  let rowKeys := rowKeysOf rows rd
  let colKeys := colKeysOf rows cd
  let m0 : Mat Rat := mInit rowKeys colKeys 0
  let ma0 : Mat Aux := mInit rowKeys colKeys { rev := 0, chk := 0, pcs := 0 }
  (rows.foldl (pivotStep rd cd pv) (some (m0, ma0))).map
    (fun p => { rowKeys := rowKeys, colKeys := colKeys, matrix := p.1, matrixAux := p.2 })

/-- One column step of the row-total loop in the table body
(index.tsx:552-571): `val` is `matrix[r][c] || 0` (crash if the row key is
missing), the auxiliary cell is read unguarded, and `rowTotal` accumulates
`val` only for the four sum measures. -/
def rowTotalStep (pt : PivotResult) (pv : PivotValue) (r : String)
    (acc : Option (Rat × Aux)) (c : String) : Option (Rat × Aux) :=
  match acc with
  | none => none
  | some (t, s) =>
    match pt.matrix r with
    | none => none
    | some inner =>
      let val := (inner c).getD 0
      match mLookup pt.matrixAux r c with
      | none => none
      | some a =>
        let s2 : Aux := { rev := s.rev + a.rev, chk := s.chk + a.chk, pcs := s.pcs + a.pcs }
        let t2 : Rat :=
          match pv with
          | .sum_revenue | .sum_checks | .sum_pieces | .sum_weight => t + val
          | _ => t
        some (t2, s2)

/-- The rendered "Итого" cell of one pivot row (index.tsx:541-580): fold the
per-column loop, then for `calc_atv`/`calc_upt` recompute the ratio from
the row-level sums, otherwise take the accumulated sum. -/
def rowTotalApp (rows : List NRow) (rd cd : NRow → String) (pv : PivotValue)
    (r : String) : Option Rat :=
  match pivotTable rows rd cd pv with
  | none => none
  | some pt =>
    match pt.colKeys.foldl (rowTotalStep pt pv r) (some (0, { rev := 0, chk := 0, pcs := 0 })) with
    | none => none
    | some (t, s) =>
      some (match pv with
        | .calc_atv => if s.chk > 0 then s.rev / s.chk else 0
        | .calc_upt => if s.chk > 0 then s.pcs / s.chk else 0
        | _ => t)

/-- `catMap[k] = (catMap[k] || 0) + v` on an insertion-ordered record
modelled as an association list (index.tsx:236). -/
def bumpEntry (acc : List (String × Rat)) (k : String) (v : Rat) : List (String × Rat) :=
  if acc.any (fun p => p.1 = k) then
    acc.map (fun p => if p.1 = k then (p.1, p.2 + v) else p)
  else acc ++ [(k, v)]

/-- The `catMap` accumulation of `chartData` (index.tsx:231-237):
per-category revenue sums keyed in first-occurrence order, as
`Object.entries` yields them. -/
def catFold (rows : List NRow) : List (String × Rat) :=
  rows.foldl (fun acc d => bumpEntry acc d.category_name d.revenue_rub) []

/-- The category ranking of `chartData` (index.tsx:243-246): entries sorted
descending by value, truncated to the top 10. -/
def categoriesChart (rows : List NRow) : List (String × Rat) :=
  (sortCmp (fun p q : String × Rat => q.2 - p.2) (catFold rows)).take 10

/-- The sum of all pivot cell values over the full key grid, the quantity
the spec compares against the KPI totals. -/
def cellsSum (pt : PivotResult) : Rat :=
  (pt.rowKeys.map (fun r => (pt.colKeys.map (fun c => (mLookup pt.matrix r c).getD 0)).sum)).sum

/-- Spec-words definition (§4.3): the claim's filter predicate, to be
compared with the code's `filterRow`. -/
def specFilterPred (f : Filters) (d : NRow) : Bool :=
  (f.dateFrom = "" || lexCmpChars f.dateFrom.data d.date.data ≤ 0) &&
  (f.dateTo = "" || lexCmpChars d.date.data f.dateTo.data ≤ 0) &&
  (f.stores.isEmpty || f.stores.contains d.store_name) &&
  (f.categories.isEmpty || f.categories.contains d.category_name) &&
  (f.unitTypes.isEmpty || f.unitTypes.contains d.unit_type)

/-- Spec-words definition (§4.4 and C2): headline ATV as "sum(revenue) /
sum(checks), 0 if sum(checks) = 0", to be compared with the code's
`statsAtv`. -/
def specAtv (rows : List NRow) : Rat :=
  let chk := (rows.map (fun d => d.checks)).sum
  if chk = 0 then 0 else (rows.map (fun d => d.revenue_rub)).sum / chk

/-- Spec-words definition (C1): the claimed `calc_atv` pivot row total,
"ratio of the row-level aggregated sums, 0 when that sum of checks is 0". -/
def specRowAtv (rows : List NRow) (rd : NRow → String) (r : String) : Rat :=
  let sub := rows.filter (fun d => rd d = r)
  let chk := (sub.map (fun d => d.checks)).sum
  if chk = 0 then 0 else (sub.map (fun d => d.revenue_rub)).sum / chk

/-- Spec-words definition (C4): unit classification as the claim states it —
`kg` iff the cleaned unit-type field or the cleaned raw unit label contains,
case-insensitively, `"kg"` or `"кг"`. -/
def specUnitIsKg (row : RawRow) : Bool :=
  let ut := jsToLower (cleanString row.unit_type)
  let ru := jsToLower (cleanString (jsOr row.unit_raw row.unitRawHr))
  hasSub "kg" ut || hasSub "кг" ut || hasSub "kg" ru || hasSub "кг" ru

/-- The filtered rows that land in pivot cell `(r, c)`. -/
def cellRows (rows : List NRow) (rd cd : NRow → String) (r c : String) : List NRow :=
  rows.filter (fun d => rd d == r && cd d == c)

/-- Field sums of a list of rows, the intended content of one `matrixAux`
cell. -/
def auxOf (l : List NRow) : Aux :=
  { rev := (l.map (fun d => d.revenue_rub)).sum
    chk := (l.map (fun d => d.checks)).sum
    pcs := (l.map (fun d => d.pieces)).sum }

/-- The intended final content of one `matrix` cell under a measure: plain
field sums, or the zero-guarded ratio of the cell's aggregated sums. -/
def cellVal (pv : PivotValue) (l : List NRow) : Rat :=
  match pv with
  | .sum_revenue => (l.map (fun d => d.revenue_rub)).sum
  | .sum_checks => (l.map (fun d => d.checks)).sum
  | .sum_pieces => (l.map (fun d => d.pieces)).sum
  | .sum_weight => (l.map (fun d => d.weight_kg)).sum
  | .calc_atv => if (auxOf l).chk > 0 then (auxOf l).rev / (auxOf l).chk else 0
  | .calc_upt => if (auxOf l).chk > 0 then (auxOf l).pcs / (auxOf l).chk else 0

/-- A matrix is defined exactly on the key grid and holds `f` there. -/
def MatInv (RK CK : List String) (m : Mat α) (f : String → String → α) : Prop :=
  (∀ r, r ∈ RK → (m r).isSome) ∧
  (∀ r c, mLookup m r c = if r ∈ RK ∧ c ∈ CK then some (f r c) else none)

/-- A neutral normalized row used to build concrete test rows. -/
def row0 : NRow :=
  { id := "", date := "", store_name := "", category_name := "", unit_raw := "",
    unit_type := "pcs", pieces_per_kg := 0, weight_kg := 0, revenue_rub := 0,
    checks := 0, pieces := 0, week := 0, month := 0, quarter := 0, year := 2025,
    atv := 0, upt := 0, avg_price_per_kg := 0, avg_price_per_piece := 0 }

/-- The all-empty filter specification. -/
def emptyFilters : Filters :=
  { dateFrom := "", dateTo := "", stores := [], categories := [], unitTypes := [] }

/-- Concrete data: a normalized row set with a negative checks sum in row
key "S" (reachable: `parseNum "-5" = -5` and nothing clamps it). -/
def negChecksRows : List NRow :=
  [{ row0 with store_name := "S", revenue_rub := 100, checks := -5 }]

/-- Concrete data: the same negative-checks situation produced by the real
pipeline, raw payload form. -/
def negChecksRaw : List RawItem :=
  [.plain { revenue_rub := .vNum 100, checks := .vStr "-5" }]

/-- Concrete data: two rows for the ratio-of-sums ATV example
(`{rev:100,chk:10}` and `{rev:50,chk:5}`). -/
def atvExampleRows : List NRow :=
  [{ row0 with revenue_rub := 100, checks := 10 },
   { row0 with revenue_rub := 50, checks := 5 }]

/-- Concrete data: store names giving the mixed key set {"a", "10", "2"}. -/
def mixedKeyRows : List NRow :=
  [{ row0 with store_name := "a" }, { row0 with store_name := "10" },
   { row0 with store_name := "2" }]

/-- Concrete data: store names giving the all-numeric key set {"10", "2"}. -/
def numericKeyRows : List NRow :=
  [{ row0 with store_name := "10" }, { row0 with store_name := "2" }]

/-- Concrete data: two categories tied at revenue 5. -/
def tiedCategoryRows : List NRow :=
  [{ row0 with category_name := "A", revenue_rub := 5 },
   { row0 with category_name := "B", revenue_rub := 5 }]

/-- Concrete data: a raw row whose unit label is Latin `"5 kg"` and whose
explicit unit-type field is absent. -/
def latinKgRaw : RawRow := { unit_raw := .vStr "5 kg" }

/-- Concrete data: the spec's `unit_raw="0.5 кг"` example row. -/
def cyrKgRaw : RawRow := { unit_raw := .vStr "0.5 кг" }

/-- Concrete data: the spec's `unit_raw="10 шт"` example row. -/
def shtRaw : RawRow := { unit_raw := .vStr "10 шт" }

/-- Concrete data: a raw row whose store and category fields hold a single
space — truthy in JS, but trimmed to `""` by `cleanString`. -/
def blankNameRaw : RawRow := { store_name := .vStr " ", category_name := .vStr " " }

/-- Concrete data: a raw row with no usable store or category in either
vocabulary. -/
def unresolvedNameRaw : RawRow := { store_name := .vNull, category_name := .vNum 0 }

/-- Concrete data: machine-vocabulary `checks` holds an explicit 0, the
human-readable key holds 7. -/
def zeroChecksRaw : RawRow := { checks := .vNum 0, checksHr := .vNum 7 }

/-! ## Helper lemmas: sums, dedup, stable sort, code-point order -/

theorem sum_map_add (ks : List α) (g h : α → Rat) :
    (ks.map (fun k => g k + h k)).sum = (ks.map g).sum + (ks.map h).sum := by
  induction ks with
  | nil => simp
  | cons k ks ih => simp [ih]; ring

theorem sum_if_not_mem (ks : List String) (a : String) (h : a ∉ ks) (c : Rat) :
    (ks.map (fun k => if a = k then c else 0)).sum = 0 := by
  induction ks with
  | nil => simp
  | cons k ks ih =>
    have hak : a ≠ k := fun e => h (e ▸ List.mem_cons_self k ks)
    have hks : a ∉ ks := fun e => h (List.mem_cons_of_mem _ e)
    simp [hak, ih hks]

theorem sum_if_eq (ks : List String) (hk : ks.Nodup) (a : String) (ha : a ∈ ks) (c : Rat) :
    (ks.map (fun k => if a = k then c else 0)).sum = c := by
  induction ks with
  | nil => simp at ha
  | cons k ks ih =>
    rcases List.nodup_cons.mp hk with ⟨hkni, hknd⟩
    rcases List.mem_cons.mp ha with h | h
    · subst h
      simp [sum_if_not_mem ks a hkni c]
    · have hak : a ≠ k := fun e => hkni (e ▸ h)
      simp [hak, ih hknd h]

theorem sum_partition {β : Type} (ks : List String) (hk : ks.Nodup) (key : β → String)
    (f : β → Rat) :
    ∀ (rows : List β), (∀ x ∈ rows, key x ∈ ks) →
      (ks.map (fun k => ((rows.filter (fun x => key x == k)).map f).sum)).sum
        = (rows.map f).sum := by
  intro rows
  induction rows with
  | nil => simp
  | cons x xs ih =>
    intro hmem
    have hx : key x ∈ ks := hmem x (List.mem_cons_self _ _)
    have hxs : ∀ y ∈ xs, key y ∈ ks := fun y hy => hmem y (List.mem_cons_of_mem _ hy)
    have hsplit : (fun k => (((x :: xs).filter (fun y => key y == k)).map f).sum)
        = fun k => (if key x = k then f x else 0)
            + ((xs.filter (fun y => key y == k)).map f).sum := by
      funext k
      by_cases h : key x = k
      · simp [List.filter_cons, h]
      · simp [List.filter_cons, h]
    rw [hsplit, sum_map_add, sum_if_eq ks hk (key x) hx (f x), ih hxs]
    simp

theorem mem_uniqAux [DecidableEq α] (l : List α) :
    ∀ (seen : List α) (a : α), a ∈ uniqAux seen l ↔ a ∈ l ∧ a ∉ seen := by
  induction l with
  | nil => simp [uniqAux]
  | cons x xs ih =>
    intro seen a
    by_cases hx : x ∈ seen
    · rw [uniqAux, if_pos hx, ih]
      constructor
      · rintro ⟨h1, h2⟩; exact ⟨List.mem_cons_of_mem _ h1, h2⟩
      · rintro ⟨h1, h2⟩
        rcases List.mem_cons.mp h1 with h | h
        · exact absurd (h ▸ hx) h2
        · exact ⟨h, h2⟩
    · rw [uniqAux, if_neg hx]
      constructor
      · intro h
        rcases List.mem_cons.mp h with h | h
        · exact ⟨h ▸ List.mem_cons_self _ _, h ▸ hx⟩
        · rcases (ih _ a).mp h with ⟨h1, h2⟩
          refine ⟨List.mem_cons_of_mem _ h1, fun hs => h2 (List.mem_cons_of_mem _ hs)⟩
      · rintro ⟨h1, h2⟩
        rcases List.mem_cons.mp h1 with h | h
        · exact h ▸ List.mem_cons_self _ _
        · by_cases hax : a = x
          · exact hax ▸ List.mem_cons_self _ _
          · exact List.mem_cons_of_mem _ ((ih _ a).mpr
              ⟨h, fun hs => (List.mem_cons.mp hs).elim hax h2⟩)

theorem nodup_uniqAux [DecidableEq α] (l : List α) :
    ∀ seen : List α, (uniqAux seen l).Nodup := by
  induction l with
  | nil => intro seen; simp [uniqAux]
  | cons x xs ih =>
    intro seen
    by_cases hx : x ∈ seen
    · rw [uniqAux, if_pos hx]; exact ih seen
    · rw [uniqAux, if_neg hx]
      refine List.nodup_cons.mpr ⟨?_, ih (x :: seen)⟩
      intro hmem
      exact ((mem_uniqAux xs (x :: seen) x).mp hmem).2 (List.mem_cons_self _ _)

theorem mem_uniqFirst [DecidableEq α] (l : List α) (a : α) : a ∈ uniqFirst l ↔ a ∈ l := by
  rw [uniqFirst, mem_uniqAux]; simp

theorem nodup_uniqFirst [DecidableEq α] (l : List α) : (uniqFirst l).Nodup :=
  nodup_uniqAux l []

theorem perm_insertCmp (cmp : α → α → Rat) (x : α) (l : List α) :
    List.Perm (insertCmp cmp x l) (x :: l) := by
  induction l with
  | nil => rfl
  | cons y ys ih =>
    rw [insertCmp]
    by_cases h : cmp x y ≤ 0
    · rw [if_pos h]
    · rw [if_neg h]
      exact (ih.cons y).trans (List.Perm.swap x y ys)

theorem perm_sortCmp (cmp : α → α → Rat) (l : List α) : List.Perm (sortCmp cmp l) l := by
  induction l with
  | nil => rfl
  | cons x xs ih => exact (perm_insertCmp cmp x (sortCmp cmp xs)).trans (ih.cons x)

theorem mem_sortCmp (cmp : α → α → Rat) (l : List α) (a : α) :
    a ∈ sortCmp cmp l ↔ a ∈ l :=
  (perm_sortCmp cmp l).mem_iff

theorem nodup_sortCmp (cmp : α → α → Rat) (l : List α) (h : l.Nodup) :
    (sortCmp cmp l).Nodup :=
  (perm_sortCmp cmp l).nodup_iff.mpr h

theorem mem_insertCmp (cmp : α → α → Rat) (x : α) (l : List α) (a : α) :
    a ∈ insertCmp cmp x l ↔ a = x ∨ a ∈ l := by
  rw [(perm_insertCmp cmp x l).mem_iff, List.mem_cons]

theorem pairwise_insertCmp {P : α → Prop} {R : α → α → Prop} (cmp : α → α → Rat)
    (hle : ∀ x y, P x → P y → cmp x y ≤ 0 → R x y)
    (hgt : ∀ x y, P x → P y → ¬cmp x y ≤ 0 → R y x)
    (htr : Transitive R) (x : α) :
    ∀ l : List α, (∀ y ∈ l, P y) → P x → l.Pairwise R → (insertCmp cmp x l).Pairwise R := by
  intro l
  induction l with
  | nil => intro _ _ _; simp [insertCmp]
  | cons y ys ih =>
    intro hPl hPx hpw
    rcases List.pairwise_cons.mp hpw with ⟨hyall, hpys⟩
    have hPy : P y := hPl y (List.mem_cons_self _ _)
    have hPys : ∀ z ∈ ys, P z := fun z hz => hPl z (List.mem_cons_of_mem _ hz)
    rw [insertCmp]
    by_cases h : cmp x y ≤ 0
    · rw [if_pos h]
      refine List.pairwise_cons.mpr ⟨?_, hpw⟩
      intro z hz
      rcases List.mem_cons.mp hz with hzy | hzys
      · exact hzy ▸ hle x y hPx hPy h
      · exact htr (hle x y hPx hPy h) (hyall z hzys)
    · rw [if_neg h]
      refine List.pairwise_cons.mpr ⟨?_, ih hPys hPx hpys⟩
      intro z hz
      rcases (mem_insertCmp cmp x ys z).mp hz with hzx | hzys
      · exact hzx ▸ hgt x y hPx hPy h
      · exact hyall z hzys

theorem pairwise_sortCmp {P : α → Prop} {R : α → α → Prop} (cmp : α → α → Rat)
    (hle : ∀ x y, P x → P y → cmp x y ≤ 0 → R x y)
    (hgt : ∀ x y, P x → P y → ¬cmp x y ≤ 0 → R y x)
    (htr : Transitive R) :
    ∀ l : List α, (∀ y ∈ l, P y) → (sortCmp cmp l).Pairwise R := by
  intro l
  induction l with
  | nil => intro _; simp [sortCmp]
  | cons x xs ih =>
    intro hP
    have hPx : P x := hP x (List.mem_cons_self _ _)
    have hPxs : ∀ y ∈ xs, P y := fun y hy => hP y (List.mem_cons_of_mem _ hy)
    have hPsorted : ∀ y ∈ sortCmp cmp xs, P y :=
      fun y hy => hPxs y ((mem_sortCmp cmp xs y).mp hy)
    exact pairwise_insertCmp cmp hle hgt htr x (sortCmp cmp xs) hPsorted hPx (ih hPxs)

theorem lexCmpChars_swap : ∀ a b : List Char, lexCmpChars b a = -lexCmpChars a b := by
  intro a
  induction a with
  | nil => intro b; cases b <;> simp [lexCmpChars]
  | cons x xs ih =>
    intro b
    cases b with
    | nil => simp [lexCmpChars]
    | cons y ys =>
      simp only [lexCmpChars]
      split_ifs <;> first | omega | exact ih ys

theorem lexCmpChars_trans :
    ∀ a b c : List Char, lexCmpChars a b ≤ 0 → lexCmpChars b c ≤ 0 → lexCmpChars a c ≤ 0 := by
  intro a
  induction a with
  | nil => intro b c _ _; cases c <;> simp [lexCmpChars]
  | cons x xs ih =>
    intro b c h1 h2
    cases b with
    | nil => simp [lexCmpChars] at h1
    | cons y ys =>
      cases c with
      | nil => simp [lexCmpChars] at h2
      | cons z zs =>
        simp only [lexCmpChars] at h1 h2 ⊢
        split_ifs at h1 h2 ⊢ <;> first | omega | exact ih ys zs h1 h2

theorem lexLe_trans : Transitive lexLe := by
  intro a b c h1 h2
  exact lexCmpChars_trans a.data b.data c.data h1 h2

theorem statsTotal_fold (rows : List NRow) :
    ∀ acc : Totals,
      rows.foldl
        (fun acc curr =>
          { rev := acc.rev + curr.revenue_rub
            chk := acc.chk + curr.checks
            pcs := acc.pcs + curr.pieces
            wgt := acc.wgt + curr.weight_kg })
        acc
      = { rev := acc.rev + (rows.map (fun d => d.revenue_rub)).sum
          chk := acc.chk + (rows.map (fun d => d.checks)).sum
          pcs := acc.pcs + (rows.map (fun d => d.pieces)).sum
          wgt := acc.wgt + (rows.map (fun d => d.weight_kg)).sum } := by
  induction rows with
  | nil => intro acc; simp
  | cons d ds ih =>
    intro acc
    rw [List.foldl_cons, ih]
    simp only [List.map_cons, List.sum_cons, Totals.mk.injEq]
    refine ⟨by ring, by ring, by ring, by ring⟩

theorem statsTotal_eq (rows : List NRow) :
    statsTotal rows
      = { rev := (rows.map (fun d => d.revenue_rub)).sum
          chk := (rows.map (fun d => d.checks)).sum
          pcs := (rows.map (fun d => d.pieces)).sum
          wgt := (rows.map (fun d => d.weight_kg)).sum } := by
  rw [statsTotal, statsTotal_fold]
  simp

theorem filterRow_eq_spec (f : Filters) (d : NRow) : filterRow f d = specFilterPred f d := by
  have hd1 : decide (lexCmpChars f.dateFrom.data d.date.data ≤ 0)
      = !decide (lexCmpChars d.date.data f.dateFrom.data < 0) := by
    have hs := lexCmpChars_swap d.date.data f.dateFrom.data
    by_cases h : lexCmpChars d.date.data f.dateFrom.data < 0 <;> simp [h, hs]
    omega
  have hd2 : decide (lexCmpChars d.date.data f.dateTo.data ≤ 0)
      = !decide (lexCmpChars f.dateTo.data d.date.data < 0) := by
    have hs := lexCmpChars_swap f.dateTo.data d.date.data
    by_cases h : lexCmpChars f.dateTo.data d.date.data < 0 <;> simp [h, hs]
    omega
  have hEmp : ∀ l : List String, l.isEmpty = decide (l = []) := by
    intro l; cases l <;> simp
  rw [filterRow, specFilterPred]
  by_cases h1 : f.dateFrom = "" <;>
    by_cases h2 : f.dateTo = "" <;>
      simp [h1, h2, hd1, hd2, hEmp, Bool.and_assoc]

/-! ## Pivot matrix lemmas -/

theorem matInv_congr {RK CK : List String} {m : Mat α} {f g : String → String → α}
    (hfg : ∀ r c, f r c = g r c) (h : MatInv RK CK m f) : MatInv RK CK m g := by
  refine ⟨h.1, fun r c => ?_⟩
  rw [h.2 r c]
  by_cases hrc : r ∈ RK ∧ c ∈ CK
  · rw [if_pos hrc, if_pos hrc, hfg]
  · rw [if_neg hrc, if_neg hrc]

theorem matInv_mInit (RK CK : List String) (a : α) :
    MatInv RK CK (mInit RK CK a) (fun _ _ => a) := by
  constructor
  · intro r hr
    simp [mInit, hr]
  · intro r c
    by_cases hr : r ∈ RK <;> by_cases hc : c ∈ CK <;>
      simp [mInit, mLookup, hr, hc]

theorem matInv_mSet {RK CK : List String} {m : Mat α} {f : String → String → α}
    (hm : MatInv RK CK m f) (r0 c0 : String) (hr0 : r0 ∈ RK) (hc0 : c0 ∈ CK) (v : α) :
    MatInv RK CK (mSet m r0 c0 v) (fun r c => if r = r0 ∧ c = c0 then v else f r c) := by
  obtain ⟨inner, hinner⟩ := Option.isSome_iff_exists.mp (hm.1 r0 hr0)
  constructor
  · intro r hr
    by_cases h : r = r0
    · subst h
      simp [mSet, hinner]
    · simpa [mSet, h] using hm.1 r hr
  · intro r c
    by_cases hrr : r = r0
    · subst hrr
      have h3 : mLookup m r c = inner c := by simp [mLookup, hinner]
      by_cases hcc : c = c0
      · subst hcc
        simp [mSet, mLookup, hinner, hr0, hc0]
      · have h4 : mLookup (mSet m r c0 v) r c = inner c := by
          simp [mSet, mLookup, hinner, hcc]
        rw [h4, ← h3, hm.2 r c]
        by_cases hrc : r ∈ RK ∧ c ∈ CK
        · simp only [if_pos hrc]
          rw [if_neg (fun hh => hcc hh.2)]
        · simp only [if_neg hrc]
    · have h4 : mLookup (mSet m r0 c0 v) r c = mLookup m r c := by
        simp [mSet, mLookup, hrr]
      rw [h4, hm.2 r c]
      by_cases hrc : r ∈ RK ∧ c ∈ CK
      · simp only [if_pos hrc]
        rw [if_neg (fun hh => hrr hh.1)]
      · simp only [if_neg hrc]

theorem cellRows_nil (rd cd : NRow → String) (r c : String) :
    cellRows [] rd cd r c = [] := rfl

theorem cellVal_nil (pv : PivotValue) : cellVal pv [] = 0 := by
  cases pv <;> simp [cellVal, auxOf]

theorem auxOf_nil : auxOf [] = { rev := 0, chk := 0, pcs := 0 } := by
  simp [auxOf]

theorem cellRows_snoc (done : List NRow) (d : NRow) (rd cd : NRow → String) (r c : String) :
    cellRows (done ++ [d]) rd cd r c =
      if rd d = r ∧ cd d = c then cellRows done rd cd r c ++ [d]
      else cellRows done rd cd r c := by
  by_cases h : rd d = r ∧ cd d = c
  · have hb : (rd d == r && cd d == c) = true := by simp [h.1, h.2]
    simp [cellRows, List.filter_append, hb, h]
  · have hb : (rd d == r && cd d == c) = false := by
      rcases not_and_or.mp h with h1 | h1 <;> simp [h1]
    simp [cellRows, List.filter_append, hb, h]

theorem auxOf_snoc (l : List NRow) (d : NRow) :
    auxOf (l ++ [d]) =
      { rev := (auxOf l).rev + d.revenue_rub
        chk := (auxOf l).chk + d.checks
        pcs := (auxOf l).pcs + d.pieces } := by
  simp [auxOf]

theorem cellVal_snoc (pv : PivotValue) (l : List NRow) (d : NRow) :
    cellVal pv (l ++ [d]) =
      match pv with
      | .sum_revenue => cellVal pv l + d.revenue_rub
      | .sum_checks => cellVal pv l + d.checks
      | .sum_pieces => cellVal pv l + d.pieces
      | .sum_weight => cellVal pv l + d.weight_kg
      | .calc_atv =>
        if (auxOf l).chk + d.checks > 0
        then ((auxOf l).rev + d.revenue_rub) / ((auxOf l).chk + d.checks) else 0
      | .calc_upt =>
        if (auxOf l).chk + d.checks > 0
        then ((auxOf l).pcs + d.pieces) / ((auxOf l).chk + d.checks) else 0 := by
  cases pv <;> simp [cellVal, auxOf]

theorem pivotFold_inv (rd cd : NRow → String) (pv : PivotValue) (RK CK : List String) :
    ∀ (l done : List NRow) (m : Mat Rat) (ma : Mat Aux),
      (∀ d ∈ l, rd d ∈ RK ∧ cd d ∈ CK) →
      MatInv RK CK m (fun r c => cellVal pv (cellRows done rd cd r c)) →
      MatInv RK CK ma (fun r c => auxOf (cellRows done rd cd r c)) →
      ∃ m2 ma2,
        l.foldl (pivotStep rd cd pv) (some (m, ma)) = some (m2, ma2) ∧
        MatInv RK CK m2 (fun r c => cellVal pv (cellRows (done ++ l) rd cd r c)) ∧
        MatInv RK CK ma2 (fun r c => auxOf (cellRows (done ++ l) rd cd r c)) := by
  intro l
  induction l with
  | nil =>
    intro done m ma _ hm hma
    exact ⟨m, ma, rfl, by simpa using hm, by simpa using hma⟩
  | cons d rest ih =>
    intro done m ma hkeys hm hma
    have hr0 : rd d ∈ RK := (hkeys d (List.mem_cons_self _ _)).1
    have hc0 : cd d ∈ CK := (hkeys d (List.mem_cons_self _ _)).2
    have hrest : ∀ x ∈ rest, rd x ∈ RK ∧ cd x ∈ CK :=
      fun x hx => hkeys x (List.mem_cons_of_mem _ hx)
    have hlkA : mLookup ma (rd d) (cd d) = some (auxOf (cellRows done rd cd (rd d) (cd d))) := by
      rw [hma.2, if_pos ⟨hr0, hc0⟩]
    have hlkV : mLookup m (rd d) (cd d)
        = some (cellVal pv (cellRows done rd cd (rd d) (cd d))) := by
      rw [hm.2, if_pos ⟨hr0, hc0⟩]
    have hsnoc : cellRows (done ++ [d]) rd cd (rd d) (cd d)
        = cellRows done rd cd (rd d) (cd d) ++ [d] := by
      rw [cellRows_snoc, if_pos ⟨rfl, rfl⟩]
    have hstep : pivotStep rd cd pv (some (m, ma)) d
        = some (mSet m (rd d) (cd d) (cellVal pv (cellRows (done ++ [d]) rd cd (rd d) (cd d))),
                mSet ma (rd d) (cd d) (auxOf (cellRows (done ++ [d]) rd cd (rd d) (cd d)))) := by
      rw [hsnoc]
      cases pv <;>
        simp [pivotStep, hlkA, hlkV, cellVal, auxOf, List.map_append, List.sum_append]
    have hmem2 : ∀ r c,
        (if r = rd d ∧ c = cd d
          then cellVal pv (cellRows (done ++ [d]) rd cd (rd d) (cd d))
          else cellVal pv (cellRows done rd cd r c))
          = cellVal pv (cellRows (done ++ [d]) rd cd r c) := by
      intro r c
      by_cases h : r = rd d ∧ c = cd d
      · rcases h with ⟨h1, h2⟩; subst h1; subst h2; rw [if_pos ⟨rfl, rfl⟩]
      · have h' : ¬(rd d = r ∧ cd d = c) := fun hh => h ⟨hh.1.symm, hh.2.symm⟩
        rw [if_neg h, cellRows_snoc, if_neg h']
    have hmemA : ∀ r c,
        (if r = rd d ∧ c = cd d
          then auxOf (cellRows (done ++ [d]) rd cd (rd d) (cd d))
          else auxOf (cellRows done rd cd r c))
          = auxOf (cellRows (done ++ [d]) rd cd r c) := by
      intro r c
      by_cases h : r = rd d ∧ c = cd d
      · rcases h with ⟨h1, h2⟩; subst h1; subst h2; rw [if_pos ⟨rfl, rfl⟩]
      · have h' : ¬(rd d = r ∧ cd d = c) := fun hh => h ⟨hh.1.symm, hh.2.symm⟩
        rw [if_neg h, cellRows_snoc, if_neg h']
    have hm2 : MatInv RK CK
        (mSet m (rd d) (cd d) (cellVal pv (cellRows (done ++ [d]) rd cd (rd d) (cd d))))
        (fun r c => cellVal pv (cellRows (done ++ [d]) rd cd r c)) :=
      matInv_congr hmem2 (matInv_mSet hm (rd d) (cd d) hr0 hc0 _)
    have hma2 : MatInv RK CK
        (mSet ma (rd d) (cd d) (auxOf (cellRows (done ++ [d]) rd cd (rd d) (cd d))))
        (fun r c => auxOf (cellRows (done ++ [d]) rd cd r c)) :=
      matInv_congr hmemA (matInv_mSet hma (rd d) (cd d) hr0 hc0 _)
    obtain ⟨m2, ma2, hfold, hfin1, hfin2⟩ := ih (done ++ [d]) _ _ hrest hm2 hma2
    refine ⟨m2, ma2, ?_, ?_, ?_⟩
    · rw [List.foldl_cons, hstep, hfold]
    · simpa using hfin1
    · simpa using hfin2

theorem mem_rowKeysOf (rows : List NRow) (rd : NRow → String) (d : NRow) (hd : d ∈ rows) :
    rd d ∈ rowKeysOf rows rd := by
  rw [rowKeysOf, mem_sortCmp, mem_uniqFirst]
  exact List.mem_map_of_mem rd hd

theorem mem_colKeysOf (rows : List NRow) (cd : NRow → String) (d : NRow) (hd : d ∈ rows) :
    cd d ∈ colKeysOf rows cd := by
  rw [colKeysOf, mem_sortCmp, mem_uniqFirst]
  exact List.mem_map_of_mem cd hd

theorem nodup_rowKeysOf (rows : List NRow) (rd : NRow → String) : (rowKeysOf rows rd).Nodup :=
  nodup_sortCmp _ _ (nodup_uniqFirst _)

theorem nodup_colKeysOf (rows : List NRow) (cd : NRow → String) : (colKeysOf rows cd).Nodup :=
  nodup_sortCmp _ _ (nodup_uniqFirst _)

theorem pivotTable_spec (rows : List NRow) (rd cd : NRow → String) (pv : PivotValue) :
    ∃ m2 ma2,
      pivotTable rows rd cd pv
        = some { rowKeys := rowKeysOf rows rd, colKeys := colKeysOf rows cd,
                 matrix := m2, matrixAux := ma2 } ∧
      MatInv (rowKeysOf rows rd) (colKeysOf rows cd) m2
        (fun r c => cellVal pv (cellRows rows rd cd r c)) ∧
      MatInv (rowKeysOf rows rd) (colKeysOf rows cd) ma2
        (fun r c => auxOf (cellRows rows rd cd r c)) := by
  have hkeys : ∀ d ∈ rows, rd d ∈ rowKeysOf rows rd ∧ cd d ∈ colKeysOf rows cd :=
    fun d hd => ⟨mem_rowKeysOf rows rd d hd, mem_colKeysOf rows cd d hd⟩
  have hm0 : MatInv (rowKeysOf rows rd) (colKeysOf rows cd)
      (mInit (rowKeysOf rows rd) (colKeysOf rows cd) (0 : Rat))
      (fun r c => cellVal pv (cellRows [] rd cd r c)) := by
    refine matInv_congr (fun r c => ?_) (matInv_mInit _ _ _)
    rw [cellRows_nil, cellVal_nil]
  have hma0 : MatInv (rowKeysOf rows rd) (colKeysOf rows cd)
      (mInit (rowKeysOf rows rd) (colKeysOf rows cd) ({ rev := 0, chk := 0, pcs := 0 } : Aux))
      (fun r c => auxOf (cellRows [] rd cd r c)) := by
    refine matInv_congr (fun r c => ?_) (matInv_mInit _ _ _)
    rw [cellRows_nil, auxOf_nil]
  obtain ⟨m2, ma2, hfold, hfin1, hfin2⟩ :=
    pivotFold_inv rd cd pv (rowKeysOf rows rd) (colKeysOf rows cd) rows [] _ _ hkeys hm0 hma0
  refine ⟨m2, ma2, ?_, by simpa using hfin1, by simpa using hfin2⟩
  rw [pivotTable]
  rw [hfold]
  rfl

theorem rowTotalFold (pt : PivotResult) (pv : PivotValue) (r : String)
    (fm : String → String → Rat) (fa : String → String → Aux)
    (hm : MatInv pt.rowKeys pt.colKeys pt.matrix fm)
    (hma : MatInv pt.rowKeys pt.colKeys pt.matrixAux fa)
    (hr : r ∈ pt.rowKeys) :
    ∀ cks : List String, (∀ c ∈ cks, c ∈ pt.colKeys) → ∀ (t : Rat) (s : Aux),
      cks.foldl (rowTotalStep pt pv r) (some (t, s))
        = some
          (t + (cks.map (fun c =>
              match pv with
              | .sum_revenue | .sum_checks | .sum_pieces | .sum_weight => fm r c
              | _ => 0)).sum,
           { rev := s.rev + (cks.map (fun c => (fa r c).rev)).sum
             chk := s.chk + (cks.map (fun c => (fa r c).chk)).sum
             pcs := s.pcs + (cks.map (fun c => (fa r c).pcs)).sum }) := by
  obtain ⟨inner, hinner⟩ := Option.isSome_iff_exists.mp (hm.1 r hr)
  intro cks
  induction cks with
  | nil => intro _ t s; simp
  | cons c cks ih =>
    intro hmem t s
    have hc : c ∈ pt.colKeys := hmem c (List.mem_cons_self _ _)
    have hcks : ∀ x ∈ cks, x ∈ pt.colKeys := fun x hx => hmem x (List.mem_cons_of_mem _ hx)
    have hval : inner c = some (fm r c) := by
      have := hm.2 r c
      rw [mLookup, hinner, if_pos ⟨hr, hc⟩] at this
      exact this
    have hlkA : mLookup pt.matrixAux r c = some (fa r c) := by
      rw [hma.2, if_pos ⟨hr, hc⟩]
    have hstep : rowTotalStep pt pv r (some (t, s)) c
        = some
          ((match pv with
            | .sum_revenue | .sum_checks | .sum_pieces | .sum_weight => t + fm r c
            | _ => t),
           { rev := s.rev + (fa r c).rev, chk := s.chk + (fa r c).chk,
             pcs := s.pcs + (fa r c).pcs }) := by
      cases pv <;> simp [rowTotalStep, hinner, hval, hlkA]
    rw [List.foldl_cons, hstep, ih hcks]
    cases pv <;> simp [add_assoc]

theorem cellRows_eq_filter (rows : List NRow) (rd cd : NRow → String) (r c : String) :
    cellRows rows rd cd r c
      = (rows.filter (fun d => rd d == r)).filter (fun x => cd x == c) := by
  rw [cellRows, List.filter_filter]
  refine List.filter_congr (fun d _ => ?_)
  exact Bool.and_comm (rd d == r) (cd d == c)

theorem rowSum_partition (rows : List NRow) (rd cd : NRow → String) (r : String)
    (f : NRow → Rat) :
    ((colKeysOf rows cd).map (fun c => ((cellRows rows rd cd r c).map f).sum)).sum
      = ((rows.filter (fun d => rd d == r)).map f).sum := by
  have hsub : ∀ x ∈ rows.filter (fun d => rd d == r), cd x ∈ colKeysOf rows cd :=
    fun x hx => mem_colKeysOf rows cd x (List.mem_of_mem_filter hx)
  have hpart := sum_partition (colKeysOf rows cd) (nodup_colKeysOf rows cd) cd f
    (rows.filter (fun d => rd d == r)) hsub
  rw [← hpart]
  have hfun : (fun c => ((cellRows rows rd cd r c).map f).sum)
      = fun c => (((rows.filter (fun d => rd d == r)).filter (fun x => cd x == c)).map f).sum :=
    funext fun c => by rw [cellRows_eq_filter]
  rw [hfun]

theorem gridSum_partition (rows : List NRow) (rd cd : NRow → String) (f : NRow → Rat) :
    ((rowKeysOf rows rd).map (fun r =>
        ((colKeysOf rows cd).map (fun c => ((cellRows rows rd cd r c).map f).sum)).sum)).sum
      = (rows.map f).sum := by
  have houter := sum_partition (rowKeysOf rows rd) (nodup_rowKeysOf rows rd) rd f rows
    (fun x hx => mem_rowKeysOf rows rd x hx)
  rw [← houter]
  have hfun : (fun r =>
      ((colKeysOf rows cd).map (fun c => ((cellRows rows rd cd r c).map f).sum)).sum)
      = fun r => ((rows.filter (fun x => rd x == r)).map f).sum :=
    funext fun r => rowSum_partition rows rd cd r f
  rw [hfun]

theorem rowTotalApp_calc_atv (rows : List NRow) (rd cd : NRow → String) (r : String)
    (hr : r ∈ rowKeysOf rows rd) :
    rowTotalApp rows rd cd .calc_atv r
      = some (if ((rows.filter (fun d => rd d == r)).map (fun d => d.checks)).sum > 0
              then ((rows.filter (fun d => rd d == r)).map (fun d => d.revenue_rub)).sum
                / ((rows.filter (fun d => rd d == r)).map (fun d => d.checks)).sum
              else 0) := by
  obtain ⟨m2, ma2, hpt, hm, hma⟩ := pivotTable_spec rows rd cd .calc_atv
  have hfold := rowTotalFold
    { rowKeys := rowKeysOf rows rd, colKeys := colKeysOf rows cd, matrix := m2, matrixAux := ma2 }
    .calc_atv r _ _ hm hma hr (colKeysOf rows cd) (fun c hc => hc) 0
    { rev := 0, chk := 0, pcs := 0 }
  rw [rowTotalApp, hpt]
  dsimp only
  rw [hfold]
  dsimp only
  have hrev : ((colKeysOf rows cd).map
      (fun c => (auxOf (cellRows rows rd cd r c)).rev)).sum
      = ((rows.filter (fun d => rd d == r)).map (fun d => d.revenue_rub)).sum := by
    rw [show (fun c => (auxOf (cellRows rows rd cd r c)).rev)
        = fun c => ((cellRows rows rd cd r c).map (fun d => d.revenue_rub)).sum from rfl]
    exact rowSum_partition rows rd cd r _
  have hchk : ((colKeysOf rows cd).map
      (fun c => (auxOf (cellRows rows rd cd r c)).chk)).sum
      = ((rows.filter (fun d => rd d == r)).map (fun d => d.checks)).sum := by
    rw [show (fun c => (auxOf (cellRows rows rd cd r c)).chk)
        = fun c => ((cellRows rows rd cd r c).map (fun d => d.checks)).sum from rfl]
    exact rowSum_partition rows rd cd r _
  simp only [zero_add, hrev, hchk]

theorem rowTotalApp_calc_upt (rows : List NRow) (rd cd : NRow → String) (r : String)
    (hr : r ∈ rowKeysOf rows rd) :
    rowTotalApp rows rd cd .calc_upt r
      = some (if ((rows.filter (fun d => rd d == r)).map (fun d => d.checks)).sum > 0
              then ((rows.filter (fun d => rd d == r)).map (fun d => d.pieces)).sum
                / ((rows.filter (fun d => rd d == r)).map (fun d => d.checks)).sum
              else 0) := by
  obtain ⟨m2, ma2, hpt, hm, hma⟩ := pivotTable_spec rows rd cd .calc_upt
  have hfold := rowTotalFold
    { rowKeys := rowKeysOf rows rd, colKeys := colKeysOf rows cd, matrix := m2, matrixAux := ma2 }
    .calc_upt r _ _ hm hma hr (colKeysOf rows cd) (fun c hc => hc) 0
    { rev := 0, chk := 0, pcs := 0 }
  rw [rowTotalApp, hpt]
  dsimp only
  rw [hfold]
  dsimp only
  have hpcs : ((colKeysOf rows cd).map
      (fun c => (auxOf (cellRows rows rd cd r c)).pcs)).sum
      = ((rows.filter (fun d => rd d == r)).map (fun d => d.pieces)).sum := by
    rw [show (fun c => (auxOf (cellRows rows rd cd r c)).pcs)
        = fun c => ((cellRows rows rd cd r c).map (fun d => d.pieces)).sum from rfl]
    exact rowSum_partition rows rd cd r _
  have hchk : ((colKeysOf rows cd).map
      (fun c => (auxOf (cellRows rows rd cd r c)).chk)).sum
      = ((rows.filter (fun d => rd d == r)).map (fun d => d.checks)).sum := by
    rw [show (fun c => (auxOf (cellRows rows rd cd r c)).chk)
        = fun c => ((cellRows rows rd cd r c).map (fun d => d.checks)).sum from rfl]
    exact rowSum_partition rows rd cd r _
  simp only [zero_add, hpcs, hchk]

theorem rowTotalApp_isSome (rows : List NRow) (rd cd : NRow → String) (pv : PivotValue)
    (r : String) (hr : r ∈ rowKeysOf rows rd) :
    (rowTotalApp rows rd cd pv r).isSome = true := by
  obtain ⟨m2, ma2, hpt, hm, hma⟩ := pivotTable_spec rows rd cd pv
  have hfold := rowTotalFold
    { rowKeys := rowKeysOf rows rd, colKeys := colKeysOf rows cd, matrix := m2, matrixAux := ma2 }
    pv r _ _ hm hma hr (colKeysOf rows cd) (fun c hc => hc) 0
    { rev := 0, chk := 0, pcs := 0 }
  rw [rowTotalApp, hpt]
  dsimp only
  rw [hfold]
  cases pv <;> rfl

theorem cellsSum_of_field (rows : List NRow) (rd cd : NRow → String) (pv : PivotValue)
    (f : NRow → Rat) (hf : ∀ l : List NRow, cellVal pv l = (l.map f).sum) :
    (pivotTable rows rd cd pv).map cellsSum = some ((rows.map f).sum) := by
  obtain ⟨m2, ma2, hpt, hm, hma⟩ := pivotTable_spec rows rd cd pv
  rw [hpt]
  dsimp only [Option.map_some']
  congr 1
  rw [cellsSum]
  dsimp only
  have hcell : ∀ r c, r ∈ rowKeysOf rows rd → c ∈ colKeysOf rows cd →
      (mLookup m2 r c).getD 0 = ((cellRows rows rd cd r c).map f).sum := by
    intro r c hrk hck
    rw [hm.2, if_pos ⟨hrk, hck⟩, Option.getD_some]
    exact hf _
  have hinner : ∀ r, r ∈ rowKeysOf rows rd →
      ((colKeysOf rows cd).map (fun c => (mLookup m2 r c).getD 0)).sum
        = ((colKeysOf rows cd).map
            (fun c => ((cellRows rows rd cd r c).map f).sum)).sum := by
    intro r hrk
    congr 1
    refine List.map_congr_left (fun c hck => ?_)
    exact hcell r c hrk hck
  have houter : ((rowKeysOf rows rd).map
      (fun r => ((colKeysOf rows cd).map (fun c => (mLookup m2 r c).getD 0)).sum)).sum
      = ((rowKeysOf rows rd).map (fun r => ((colKeysOf rows cd).map
          (fun c => ((cellRows rows rd cd r c).map f).sum)).sum)).sum := by
    congr 1
    refine List.map_congr_left (fun r hrk => ?_)
    exact hinner r hrk
  rw [houter, gridSum_partition]

/-! ## Claim theorems -/

/-- C2 (counterexample): the claim's "0 when sum(checks) is 0" guard is not
what the code computes — on a reachable row set whose checks sum is
negative (`parseNum "-5" = -5` flows through unclamped), the code's headline
ATV is 0 while the claimed formula `sum(revenue)/sum(checks)` gives -20. -/
theorem claim_C2_counterexample :
    statsAtv (filteredData emptyFilters (normalizeData negChecksRaw)) = 0 ∧
    specAtv (filteredData emptyFilters (normalizeData negChecksRaw)) = -20 ∧
    (0 : Rat) ≠ -20 := by
  refine ⟨by with_unfolding_all decide, by with_unfolding_all decide, by with_unfolding_all decide⟩

/-- C2 (amended): the KPI aggregator's headline ATV equals
`sum(revenue)/sum(checks)` and UPT equals `sum(pieces)/sum(checks)`, each 0
when `sum(checks)` is NOT POSITIVE (the code guards with `> 0`, not
`= 0`); ratio of sums, not mean of ratios: rows {rev:100,chk:10} and
{rev:50,chk:5} yield total ATV 10. -/
theorem claim_C2_kpi_ratio_of_sums (rows : List NRow) :
    (statsAtv rows
      = if (rows.map (fun d => d.checks)).sum > 0
        then (rows.map (fun d => d.revenue_rub)).sum / (rows.map (fun d => d.checks)).sum
        else 0) ∧
    (statsUpt rows
      = if (rows.map (fun d => d.checks)).sum > 0
        then (rows.map (fun d => d.pieces)).sum / (rows.map (fun d => d.checks)).sum
        else 0) ∧
    statsAtv atvExampleRows = 10 := by
  refine ⟨?_, ?_, by with_unfolding_all decide⟩
  · rw [statsAtv, statsTotal_eq]
  · rw [statsUpt, statsTotal_eq]

/-- C3: for every filtered row set and every choice of pivot dimensions,
under each of the four sum measures the sum of all pivot cell values over
the full (row-key, col-key) grid equals the KPI aggregator's total of the
corresponding field. -/
theorem claim_C3_cells_sum_to_kpi (rows : List NRow) (rd cd : NRow → String) :
    (pivotTable rows rd cd .sum_revenue).map cellsSum = some (statsTotal rows).rev ∧
    (pivotTable rows rd cd .sum_checks).map cellsSum = some (statsTotal rows).chk ∧
    (pivotTable rows rd cd .sum_pieces).map cellsSum = some (statsTotal rows).pcs ∧
    (pivotTable rows rd cd .sum_weight).map cellsSum = some (statsTotal rows).wgt := by
  rw [statsTotal_eq]
  exact ⟨cellsSum_of_field rows rd cd _ _ (fun l => rfl),
    cellsSum_of_field rows rd cd _ _ (fun l => rfl),
    cellsSum_of_field rows rd cd _ _ (fun l => rfl),
    cellsSum_of_field rows rd cd _ _ (fun l => rfl)⟩

/-- C4 (counterexample): the claim says a raw unit label containing a
case-insensitive Latin "kg" classifies the row as kg, but the code checks
the raw unit label only for the Cyrillic "кг" — `unit_raw = "5 kg"` with no
explicit unit-type field normalizes to `pcs` although the claim's predicate
holds. -/
theorem claim_C4_counterexample :
    (normalizeData [.plain latinKgRaw]).map (fun d => d.unit_type) = ["pcs"] ∧
    specUnitIsKg latinKgRaw = true := by
  refine ⟨by with_unfolding_all decide, by with_unfolding_all decide⟩

/-- C4 (amended): the normalizer classifies `unit_type` as kg iff the
cleaned, lower-cased explicit unit-type field contains "kg" or "кг", OR the
cleaned, lower-cased raw unit label contains the Cyrillic "кг" (the raw
label is NOT checked for Latin "kg"); otherwise pcs.  The claim's concrete
examples hold: `unit_raw="0.5 кг"` gives kg, `unit_raw="10 шт"` gives pcs. -/
theorem claim_C4_unit_type_inference (idx : Nat) (raw : RawRow) :
    ((normalizeRow idx (.plain raw)).unit_type
      = if hasSub "kg" (jsToLower (cleanString raw.unit_type))
          || hasSub "кг" (jsToLower (cleanString raw.unit_type))
          || hasSub "кг" (jsToLower (cleanString (jsOr raw.unit_raw raw.unitRawHr)))
        then "kg" else "pcs") ∧
    (normalizeData [.plain cyrKgRaw]).map (fun d => d.unit_type) = ["kg"] ∧
    (normalizeData [.plain shtRaw]).map (fun d => d.unit_type) = ["pcs"] := by
  refine ⟨rfl, by with_unfolding_all decide, by with_unfolding_all decide⟩

/-- C6: the filter engine returns exactly the rows satisfying the claim's
conjunction of five conditions (inclusive date bounds compared
lexicographically on the ISO string, empty selections meaning no
restriction), in input order — `List.filter` by construction preserves
order — and the all-empty filter specification is the identity. -/
theorem claim_C6_filter_predicate (f : Filters) (data : List NRow) :
    filteredData f data = data.filter (specFilterPred f) ∧
    filteredData emptyFilters data = data := by
  constructor
  · exact List.filter_congr (fun d _ => filterRow_eq_spec f d)
  · refine List.filter_eq_self.mpr (fun d _ => ?_)
    rw [filterRow_eq_spec]
    simp [specFilterPred, emptyFilters]

/-- C7 (counterexample): a store/category field holding a single space is
truthy in JS, so the alias chain selects it, and `cleanString` then trims
it to the empty string — the normalized `store_name` and `category_name`
CAN be empty, contradicting "never the empty string". -/
theorem claim_C7_counterexample :
    (normalizeData [.plain blankNameRaw]).map (fun d => d.store_name) = [""] ∧
    (normalizeData [.plain blankNameRaw]).map (fun d => d.category_name) = [""] := by
  refine ⟨by with_unfolding_all decide, by with_unfolding_all decide⟩

/-- C7 (amended): when the store (resp. category) field is unresolved —
falsy in both key vocabularies — the normalizer defaults it to the
non-empty label "Неизвестно" (resp. "Прочее"); however a resolved
whitespace-only value cleans to the empty string, so the normalized names
are not never-empty in general. -/
theorem claim_C7_default_labels (idx : Nat) (raw : RawRow) :
    (truthy raw.store_name = false → truthy raw.storeHr = false →
      (normalizeRow idx (.plain raw)).store_name = "Неизвестно") ∧
    (truthy raw.category_name = false → truthy raw.categoryHr = false →
      (normalizeRow idx (.plain raw)).category_name = "Прочее") ∧
    ("Неизвестно" : String) ≠ "" ∧ ("Прочее" : String) ≠ "" := by
  refine ⟨?_, ?_, by decide, by decide⟩
  · intro h1 h2
    simp only [normalizeRow, jsOr, h1, h2, if_false, Bool.false_eq_true]
    with_unfolding_all decide
  · intro h1 h2
    simp only [normalizeRow, jsOr, h1, h2, if_false, Bool.false_eq_true]
    with_unfolding_all decide

/-- C7 (witness): the amended claim at a concrete raw row with no usable
store or category value in either vocabulary. -/
theorem claim_C7_default_labels_witness :
    (normalizeRow 0 (.plain unresolvedNameRaw)).store_name = "Неизвестно" ∧
    (normalizeRow 0 (.plain unresolvedNameRaw)).category_name = "Прочее" :=
  ⟨(claim_C7_default_labels 0 unresolvedNameRaw).1 (by decide) (by decide),
   (claim_C7_default_labels 0 unresolvedNameRaw).2.1 (by with_unfolding_all decide) (by decide)⟩

/-- C9 (counterexample): two categories tied at revenue 5 stay in
insertion order with equal values, so the ranking is not STRICTLY
descending. -/
theorem claim_C9_counterexample :
    categoriesChart tiedCategoryRows = [("A", 5), ("B", 5)] ∧
    ¬ List.Pairwise (fun p q : String × Rat => q.2 < p.2) (categoriesChart tiedCategoryRows) := by
  refine ⟨by with_unfolding_all decide, by with_unfolding_all decide⟩

/-- C9 (amended): the category ranking returns at most 10 entries and is
sorted descending (non-increasing, not strictly) by summed revenue. -/
theorem claim_C9_category_ranking (rows : List NRow) :
    (categoriesChart rows).length ≤ 10 ∧
    List.Pairwise (fun p q : String × Rat => q.2 ≤ p.2) (categoriesChart rows) := by
  constructor
  · rw [categoriesChart]
    exact List.length_take_le 10 _
  · rw [categoriesChart]
    refine List.Pairwise.sublist (List.take_sublist 10 _) ?_
    refine pairwise_sortCmp (P := fun _ => True)
      (R := fun p q : String × Rat => q.2 ≤ p.2)
      (fun p q : String × Rat => q.2 - p.2)
      (fun x y _ _ h => by dsimp only at h; linarith)
      (fun x y _ _ h => by dsimp only at h; push_neg at h; linarith)
      (fun a b c h1 h2 => le_trans h2 h1) _ (fun y _ => trivial)

/-- C10: alias resolution treats any falsy machine-vocabulary value (0,
`""`, or null) as unusable: `checks` then comes from the human-readable
"Чеки, шт." key, so an explicit 0 is overridden by it. -/
theorem claim_C10_falsy_alias (idx : Nat) (raw : RawRow)
    (h : raw.checks = JVal.vNum 0 ∨ raw.checks = JVal.vStr "" ∨ raw.checks = JVal.vNull) :
    (normalizeRow idx (.plain raw)).checks = parseNum raw.checksHr := by
  have hf : truthy raw.checks = false := by
    rcases h with h | h | h <;> rw [h] <;> decide
  simp only [normalizeRow, jsOr, hf, Bool.false_eq_true, if_false]

/-- C10 (witness): a row with machine `checks = 0` and human-readable
checks 7 normalizes to `checks = 7`. -/
theorem claim_C10_falsy_alias_witness :
    (zeroChecksRaw.checks = JVal.vNum 0 ∨ zeroChecksRaw.checks = JVal.vStr ""
      ∨ zeroChecksRaw.checks = JVal.vNull) ∧
    (normalizeRow 0 (.plain zeroChecksRaw)).checks = 7 := by
  refine ⟨Or.inl rfl, ?_⟩
  rw [claim_C10_falsy_alias 0 zeroChecksRaw (Or.inl rfl)]
  with_unfolding_all decide

/-- C1 (counterexample): on a reachable row set whose row-level checks sum
is negative, the rendered `calc_atv` row total is 0 (the code guards with
`> 0`) while the claim's zero-guarded ratio — "0 only when the sum of
checks is 0, else the quotient" — gives -20. -/
theorem claim_C1_counterexample :
    rowTotalApp negChecksRows (fun d => d.store_name) (fun d => d.date) .calc_atv "S"
      = some 0 ∧
    specRowAtv negChecksRows (fun d => d.store_name) "S" = -20 ∧
    some (0 : Rat) ≠ some (-20 : Rat) := by
  refine ⟨by with_unfolding_all decide, by with_unfolding_all decide,
    by with_unfolding_all decide⟩

/-- C1 (amended): for every filtered row set, row and column dimension and
row key of the pivot, the `calc_atv` (resp. `calc_upt`) row total equals
the ratio of the row-level aggregated sums — sum of revenue (resp. pieces)
over all rows of that row key divided by their sum of checks — and is 0
when that sum of checks is NOT POSITIVE (the code guards with `> 0`, not
`= 0`); consequently it is unchanged by any repartition of the column
dimension. -/
theorem claim_C1_row_totals (rows : List NRow) (rd cd : NRow → String) (r : String)
    (hr : r ∈ rowKeysOf rows rd) :
    (rowTotalApp rows rd cd .calc_atv r
      = some (if ((rows.filter (fun d => rd d == r)).map (fun d => d.checks)).sum > 0
              then ((rows.filter (fun d => rd d == r)).map (fun d => d.revenue_rub)).sum
                / ((rows.filter (fun d => rd d == r)).map (fun d => d.checks)).sum
              else 0)) ∧
    (rowTotalApp rows rd cd .calc_upt r
      = some (if ((rows.filter (fun d => rd d == r)).map (fun d => d.checks)).sum > 0
              then ((rows.filter (fun d => rd d == r)).map (fun d => d.pieces)).sum
                / ((rows.filter (fun d => rd d == r)).map (fun d => d.checks)).sum
              else 0)) ∧
    (∀ cd2 : NRow → String,
      rowTotalApp rows rd cd .calc_atv r = rowTotalApp rows rd cd2 .calc_atv r) ∧
    (∀ cd2 : NRow → String,
      rowTotalApp rows rd cd .calc_upt r = rowTotalApp rows rd cd2 .calc_upt r) := by
  refine ⟨rowTotalApp_calc_atv rows rd cd r hr, rowTotalApp_calc_upt rows rd cd r hr, ?_, ?_⟩
  · intro cd2
    rw [rowTotalApp_calc_atv rows rd cd r hr, rowTotalApp_calc_atv rows rd cd2 r hr]
  · intro cd2
    rw [rowTotalApp_calc_upt rows rd cd r hr, rowTotalApp_calc_upt rows rd cd2 r hr]

/-- C1 (witness): the amended claim at the two-row example — row total ATV
is the ratio of sums 150/15 = 10. -/
theorem claim_C1_row_totals_witness :
    rowTotalApp atvExampleRows (fun d => d.store_name) (fun d => d.date) .calc_atv ""
      = some 10 := by
  have h := (claim_C1_row_totals atvExampleRows (fun d => d.store_name) (fun d => d.date) ""
    (by with_unfolding_all decide)).1
  rw [h]
  with_unfolding_all decide

/-- C5 (counterexample): the key set {"a", "10", "2"} mixes numeric and
non-numeric keys, yet the comparator still orders the numeric pair
numerically — the result ["2", "10", "a"] is not in lexicographic order
("2" does not precede "10" lexicographically), contradicting "a mixed set
is ordered purely lexicographically". -/
theorem claim_C5_counterexample :
    colKeysOf mixedKeyRows (fun d => d.store_name) = ["2", "10", "a"] ∧
    ¬ List.Pairwise lexLe (colKeysOf mixedKeyRows (fun d => d.store_name)) ∧
    jsNumber "a" = none ∧ (jsNumber "2").isSome = true ∧ (jsNumber "10").isSome = true := by
  refine ⟨by with_unfolding_all decide, by with_unfolding_all decide,
    by with_unfolding_all decide, by with_unfolding_all decide, by with_unfolding_all decide⟩

/-- C5 (amended): the pivot's column-key list is the distinct string values
of the column dimension; it is sorted numerically ascending when EVERY key
parses as a number, and lexicographically when NO key parses as a number; a
mixed set is ordered by the pairwise comparator (numeric for all-numeric
pairs, lexicographic otherwise) and need not be in lexicographic order. -/
theorem claim_C5_colkey_sort (rows : List NRow) (cd : NRow → String) :
    (colKeysOf rows cd).Nodup ∧
    (∀ s : String, s ∈ colKeysOf rows cd ↔ s ∈ rows.map cd) ∧
    ((∀ s ∈ rows.map cd, (jsNumber s).isSome = true) →
      List.Pairwise (fun a b => numVal a ≤ numVal b) (colKeysOf rows cd)) ∧
    ((∀ s ∈ rows.map cd, jsNumber s = none) →
      List.Pairwise lexLe (colKeysOf rows cd)) := by
  refine ⟨nodup_colKeysOf rows cd,
    fun s => by rw [colKeysOf, mem_sortCmp, mem_uniqFirst], ?_, ?_⟩
  · intro hnum
    rw [colKeysOf]
    refine pairwise_sortCmp (P := fun s => (jsNumber s).isSome = true)
      (R := fun a b => numVal a ≤ numVal b) colCmp
      ?_ ?_ (fun a b c h1 h2 => le_trans h1 h2) _
      (fun y hy => hnum y ((mem_uniqFirst _ y).mp hy))
    · intro x y hx hy h
      obtain ⟨vx, hvx⟩ := Option.isSome_iff_exists.mp hx
      obtain ⟨vy, hvy⟩ := Option.isSome_iff_exists.mp hy
      have hc : colCmp x y = vx - vy := by simp [colCmp, hvx, hvy]
      rw [hc] at h
      show numVal x ≤ numVal y
      rw [numVal, numVal, hvx, hvy, Option.getD_some, Option.getD_some]
      linarith
    · intro x y hx hy h
      obtain ⟨vx, hvx⟩ := Option.isSome_iff_exists.mp hx
      obtain ⟨vy, hvy⟩ := Option.isSome_iff_exists.mp hy
      have hc : colCmp x y = vx - vy := by simp [colCmp, hvx, hvy]
      rw [hc] at h
      show numVal y ≤ numVal x
      rw [numVal, numVal, hvx, hvy, Option.getD_some, Option.getD_some]
      linarith
  · intro hnone
    rw [colKeysOf]
    refine pairwise_sortCmp (P := fun s => jsNumber s = none)
      (R := lexLe) colCmp ?_ ?_ lexLe_trans _
      (fun y hy => hnone y ((mem_uniqFirst _ y).mp hy))
    · intro x y hx hy h
      have hc : colCmp x y = ((lexCmpChars x.data y.data : Int) : Rat) := by
        simp [colCmp, hx, hy]
      rw [hc] at h
      show lexCmpChars x.data y.data ≤ 0
      exact_mod_cast h
    · intro x y hx hy h
      have hc : colCmp x y = ((lexCmpChars x.data y.data : Int) : Rat) := by
        simp [colCmp, hx, hy]
      rw [hc] at h
      have hpos : (0 : Int) < lexCmpChars x.data y.data := by
        have := lt_of_not_le h
        exact_mod_cast this
      show lexCmpChars y.data x.data ≤ 0
      rw [lexCmpChars_swap x.data y.data]
      omega

/-- C5 (witness): the amended claim's all-numeric branch at the key set
{"10", "2"}: the column keys come out numerically ascending. -/
theorem claim_C5_colkey_sort_witness :
    List.Pairwise (fun a b => numVal a ≤ numVal b)
      (colKeysOf numericKeyRows (fun d => d.store_name)) :=
  (claim_C5_colkey_sort numericKeyRows (fun d => d.store_name)).2.2.1
    (by with_unfolding_all decide)

/-- C8: the pivot construction is total: for every input the fold
succeeds (`isSome`), every (row-key, col-key) cell of both matrices is
present — the missing-key crash branches are unreachable — and every
rendered row total is defined; the normalizer likewise produces exactly
one row per input item.  Normalization, filtering, KPI aggregation and
series aggregation are structurally recursive total functions in this
embedding. -/
theorem claim_C8_totality (rows : List NRow) (rd cd : NRow → String) (pv : PivotValue) :
    (pivotTable rows rd cd pv).isSome = true ∧
    (pivotTable rows rd cd pv).map (fun pt =>
        pt.rowKeys.all (fun r => pt.colKeys.all (fun c =>
          (mLookup pt.matrix r c).isSome && (mLookup pt.matrixAux r c).isSome)))
      = some true ∧
    (pivotTable rows rd cd pv).map (fun pt =>
        pt.rowKeys.all (fun r => (rowTotalApp rows rd cd pv r).isSome))
      = some true ∧
    (∀ raws : List RawItem, (normalizeData raws).length = raws.length) := by
  obtain ⟨m2, ma2, hpt, hm, hma⟩ := pivotTable_spec rows rd cd pv
  refine ⟨by rw [hpt]; rfl, ?_, ?_, fun raws => by simp [normalizeData]⟩
  · rw [hpt]
    dsimp only [Option.map_some']
    congr 1
    simp only [List.all_eq_true]
    intro r hr c hc
    rw [hm.2, hma.2, if_pos ⟨hr, hc⟩, if_pos ⟨hr, hc⟩]
    rfl
  · rw [hpt]
    dsimp only [Option.map_some']
    congr 1
    simp only [List.all_eq_true]
    intro r hr
    exact rowTotalApp_isSome rows rd cd pv r hr
